import Mathlib

/-!
Verification development for the histogram-equalization program
`assignment1.cpp` (OpenCL-Tutorials).  The host program is shallowly
embedded: command-line parsing, configuration validation, the image-load
path and the try/catch control flow are translated into pure Lean
functions; the two prefix-sum device kernels (whose `.cl` source is not
part of the host file) are modelled from the specification.
-/

namespace Assignment1

/-! ### C `atoi`, as used for the `-p`, `-d` and `-b` option values -/

/-- Accumulate leading decimal digits, as the digit loop of C `atoi`. -/
def atoiDigits : List Char → Nat → Nat
  | c :: cs, acc =>
    if c.isDigit then atoiDigits cs (acc * 10 + (c.toNat - 48)) else acc
  | [], acc => acc

/-- C `atoi`: skip leading whitespace, optional sign, then decimal digits;
returns 0 when no digits are present. -/
def atoi (s : String) : Int :=
  let cs := s.data.dropWhile Char.isWhitespace
  match cs with
  | '-' :: rest => - (atoiDigits rest 0 : Int)
  | '+' :: rest => (atoiDigits rest 0 : Int)
  | _ => (atoiDigits cs 0 : Int)

/-! ### Program configuration (the mutable locals of `main`, lines 36-40) -/

/-- Defaults as declared at the top of `main`. -/
structure Config where
  platform_id : Int := 0
  device_id : Int := 0
  image_filename : String := "mdr16.ppm"
  num_bins : Int := 256
  scan_type : String := "bl"
deriving DecidableEq

/-- Outcome of the argument-parsing loop: either `-h` was hit (immediate
`return 0` after printing usage), or the loop ran to completion.  `listed`
records whether `-l` printed the platform list to stdout on the way. -/
inductive ParseOutcome where
  | helpExit (listed : Bool)
  | done (cfg : Config) (listed : Bool)
deriving DecidableEq

/-- The `for (int i = 1; i < argc; i++)` parsing loop of `main`
(lines 43-51).  A value-taking option consumes the next argument only when
one exists (`i < argc - 1`); otherwise no branch matches and the argument
is skipped.  `-l` prints the platform list and continues; `-h` prints the
usage text and returns immediately; unrecognized arguments are skipped. -/
def parseLoop : List String → Config → Bool → ParseOutcome
  | [], cfg, listed => .done cfg listed
  | [a], cfg, listed =>
    if a = "-l" then .done cfg true
    else if a = "-h" then .helpExit listed
    else .done cfg listed
  | a :: b :: rest, cfg, listed =>
    if a = "-p" then parseLoop rest { cfg with platform_id := atoi b } listed
    else if a = "-d" then parseLoop rest { cfg with device_id := atoi b } listed
    else if a = "-l" then parseLoop (b :: rest) cfg true
    else if a = "-f" then parseLoop rest { cfg with image_filename := b } listed
    else if a = "-b" then parseLoop rest { cfg with num_bins := atoi b } listed
    else if a = "-s" then parseLoop rest { cfg with scan_type := b } listed
    else if a = "-h" then .helpExit listed
    else parseLoop (b :: rest) cfg listed

/-- Parse the whole command line (`argv[1..]`) starting from the defaults. -/
def parseArgs (args : List String) : ParseOutcome :=
  parseLoop args {} false

/-! ### Images and the external environment of a run -/

/-- A decoded raster image: dimensions, channel count (`spectrum()`), and
the flattened sample data. -/
structure Image where
  width : Nat
  height : Nat
  spectrum : Nat
  pixels : List Nat
deriving DecidableEq

/-- The 8-bit-to-16-bit sample expansion of lines 91-93:
`(unsigned short)(v * 257)`, i.e. the product truncated to 16 bits. -/
def expandSample (v : Nat) : Nat := (v * 257) % 65536

/-- Expand every sample of an 8-bit image to the 16-bit working depth. -/
def expandImage (img : Image) : Image :=
  { img with pixels := img.pixels.map expandSample }

/-- External collaborators of one run: whether `fopen` on the input file
succeeds, the `maxval` field `fscanf` reads from the header, the results
of the two CImg decoders, and whether OpenCL context creation and program
build succeed. -/
structure Env where
  fopen_ok : Bool
  maxval : Int
  decode8 : Option Image
  decode16 : Option Image
  context_ok : Bool
  build_ok : Bool
deriving DecidableEq

/-- Observable outcome of one program run: the process exit status, what
was printed (usage text, platform list, error diagnostic on stderr),
whether the input file open was attempted, the image handed to the
pipeline, and how many channels the per-channel loop processed. -/
structure RunResult where
  exitCode : Nat
  usagePrinted : Bool
  listPrinted : Bool
  errPrinted : Bool
  loadAttempted : Bool
  image : Option Image
  channelsProcessed : Nat
deriving DecidableEq

/-- The body of the `try` block (lines 71-355) together with the two
`catch` handlers: open the file, decode at the detected bit depth, create
the OpenCL context, build the kernels, then run the per-channel pipeline
over all `image.spectrum()` channels.  Every thrown `CImgException` or
`cl::Error` is caught, a diagnostic goes to stderr, and control falls
through to `return 0` (line 362). -/
def runPipeline (env : Env) (listed : Bool) : RunResult :=
  if env.fopen_ok = false then
    { exitCode := 0, usagePrinted := false, listPrinted := listed,
      errPrinted := true, loadAttempted := true, image := none,
      channelsProcessed := 0 }
  else
    match (if env.maxval ≤ 255 then env.decode8.map expandImage else env.decode16) with
    | none =>
      { exitCode := 0, usagePrinted := false, listPrinted := listed,
        errPrinted := true, loadAttempted := true, image := none,
        channelsProcessed := 0 }
    | some img =>
      if env.context_ok = false then
        { exitCode := 0, usagePrinted := false, listPrinted := listed,
          errPrinted := true, loadAttempted := true, image := some img,
          channelsProcessed := 0 }
      else if env.build_ok = false then
        { exitCode := 0, usagePrinted := false, listPrinted := listed,
          errPrinted := true, loadAttempted := true, image := some img,
          channelsProcessed := 0 }
      else
        { exitCode := 0, usagePrinted := false, listPrinted := listed,
          errPrinted := false, loadAttempted := true, image := some img,
          channelsProcessed := img.spectrum }

/-- Full control flow of `main`: parse the arguments; `-h` exits 0 after
printing usage; a non-positive bin count or an unknown scan type prints an
error to stderr and exits 1 before any image loading; otherwise the
try-block pipeline runs. -/
def runProgram (args : List String) (env : Env) : RunResult :=
  match parseArgs args with
  | .helpExit listed =>
    { exitCode := 0, usagePrinted := true, listPrinted := listed,
      errPrinted := false, loadAttempted := false, image := none,
      channelsProcessed := 0 }
  | .done cfg listed =>
    if cfg.num_bins ≤ 0 then
      { exitCode := 1, usagePrinted := false, listPrinted := listed,
        errPrinted := true, loadAttempted := false, image := none,
        channelsProcessed := 0 }
    else if cfg.scan_type ≠ "bl" ∧ cfg.scan_type ≠ "hs" then
      { exitCode := 1, usagePrinted := false, listPrinted := listed,
        errPrinted := true, loadAttempted := false, image := none,
        channelsProcessed := 0 }
    else
      runPipeline env listed

/-! ### `next_power_of_2` (lines 23-32), with 64-bit `size_t` semantics -/

/-- One bit-smearing step `n |= n >> t` of `next_power_of_2`. -/
def orShift (m t : Nat) : Nat := m ||| (m >>> t)

/-- The five smearing steps of `next_power_of_2`. -/
def smearAll (m : Nat) : Nat :=
  orShift (orShift (orShift (orShift (orShift m 1) 2) 4) 8) 16

/-- `next_power_of_2` from lines 23-32: return 1 for 0, else decrement,
smear the bits down with shifts by 1, 2, 4, 8, 16, and increment.  The
argument and result are `size_t`; the final increment wraps modulo 2^64. -/
def next_power_of_2 (n : Nat) : Nat :=
  if n = 0 then 1 else (smearAll (n - 1) + 1) % 2 ^ 64

/-! ### The two prefix-sum kernels -/

/-- Inclusive prefix sums of a list (reference semantics for both scans). -/
def incScan : List Nat → List Nat
  | [] => []
  | x :: xs => x :: (incScan xs).map (x + ·)

/-- Modelled from the spec: one doubling step of the step-efficient
(Hillis-Steele) kernel `scan_hs`, whose `.cl` source is not in the host
file.  "At each step, element i accumulates from element `i - stride` if
in range, else keeps its value; writes to a scratch buffer and swaps." -/
def hsStep (stride : Nat) (f : Nat → Nat) : Nat → Nat :=
  fun i => f i + (if stride ≤ i then f (i - stride) else 0)

/-- Modelled from the spec: `t` doubling steps with strides 1, 2, 4, ... -/
def hsIter : Nat → (Nat → Nat) → (Nat → Nat)
  | 0, f => f
  | t + 1, f => hsStep (2 ^ t) (hsIter t f)

/-- Modelled from the spec: the step-efficient scan over the `B` buffer
elements — `⌈log2 B⌉` doubling steps (`Nat.clog 2 B`). -/
def scan_hs (hist : List Nat) : List Nat :=
  (List.range hist.length).map
    (hsIter (Nat.clog 2 hist.length) (fun i => hist.getD i 0))

/-- A perfect binary tree of samples: the execution shape of the
work-efficient scan's up-sweep/down-sweep over a power-of-two domain. -/
inductive PTree where
  | leaf (v : Nat)
  | node (l r : PTree)

/-- Flatten a tree back to the buffer order. -/
def PTree.toList : PTree → List Nat
  | .leaf v => [v]
  | .node l r => l.toList ++ r.toList

/-- Modelled from the spec: the up-sweep "builds partial sums in a
binary-tree pattern" — each tree node holds the sum of its block. -/
def PTree.upsweep : PTree → Nat
  | .leaf v => v
  | .node l r => l.upsweep + r.upsweep

/-- Modelled from the spec: the down-sweep "distributes sums back down" —
each subtree receives the sum of everything to its left, and a leaf adds
its own value, so that the first `B` entries form the (inclusive)
cumulative histogram as the spec's post-condition requires. -/
def PTree.downsweep (acc : Nat) : PTree → PTree
  | .leaf v => .leaf (acc + v)
  | .node l r => .node (l.downsweep acc) (r.downsweep (acc + l.upsweep))

/-- Build the perfect tree of depth `k` over a buffer of length `2 ^ k`. -/
def buildTree : Nat → List Nat → PTree
  | 0, xs => .leaf (xs.getD 0 0)
  | k + 1, xs => .node (buildTree k (xs.take (2 ^ k))) (buildTree k (xs.drop (2 ^ k)))

/-- Modelled from the spec: the work-efficient (Blelloch) kernel `scan_bl`
over a power-of-two buffer of length `2 ^ k`: up-sweep then down-sweep. -/
def scan_bl (k : Nat) (xs : List Nat) : List Nat :=
  ((buildTree k xs).downsweep 0).toList

/-- Host-side cumulative histogram for `scan_type = "bl"`: the histogram
buffer is padded with zero bins to `next_power_of_2 num_bins` (the buffer
is zero-initialized at line 170-171 and the histogram kernel only touches
the first `num_bins` bins), scanned in place, and read back. -/
def cumHist_bl (hist : List Nat) : List Nat :=
  let P := next_power_of_2 hist.length
  scan_bl (Nat.log 2 P) (hist ++ List.replicate (P - hist.length) 0)

/-- Host-side cumulative histogram for `scan_type = "hs"`: the scan writes
the scratch buffer, which is copied back over the histogram buffer
(line 230) and read back. -/
def cumHist_hs (hist : List Nat) : List Nat :=
  scan_hs hist

/-! ### Per-stage metrics (struct `StepMetrics`, lines 151-158) -/

/-- Timing and complexity metrics of one pipeline step. -/
structure StepMetrics where
  transfer_time : ℚ := 0
  kernel_time : ℚ := 0
  total_time : ℚ := 0
  work : Nat := 0
  span : Nat := 0
deriving DecidableEq

/-- An OpenCL profiling event: queued start and end counters. -/
structure ProfEvent where
  start : ℚ
  fin : ℚ
deriving DecidableEq

/-- The `* 1e-9` nanosecond conversion applied to counter differences. -/
def nano : ℚ := 1 / 1000000000

/-- Duration of one profiling event in seconds. -/
def evDur (e : ProfEvent) : ℚ := (e.fin - e.start) * nano

/-- Step 1 (input transfer and histogram init, lines 167-178): only
`transfer_time` is measured (two write events); `kernel_time` keeps its
zero initializer and `total_time = transfer_time`. -/
def step0Metrics (e1a e1b : ProfEvent) (image_size hist_size : Nat) : StepMetrics :=
  let tt : ℚ := (e1a.fin - e1a.start + (e1b.fin - e1b.start)) * nano
  { transfer_time := tt, total_time := tt, work := image_size + hist_size, span := 1 }

/-- Step 2 (histogram kernel, lines 180-198).  The span the source stores
comes from a `double` log2 computation, so it is taken as a parameter. -/
def step1Metrics (e2a e2b : ProfEvent) (image_size num_bins spanv : Nat) : StepMetrics :=
  { kernel_time := evDur e2a, transfer_time := evDur e2b,
    total_time := evDur e2a + evDur e2b,
    work := image_size + num_bins, span := spanv }

/-- Step 3 with the Blelloch scan (lines 212-220 and 232-236). -/
def step2MetricsBl (e3a e3b : ProfEvent) (padded_num_bins spanv : Nat) : StepMetrics :=
  { kernel_time := evDur e3a, transfer_time := evDur e3b,
    total_time := evDur e3a + evDur e3b,
    work := 2 * padded_num_bins - 1, span := spanv }

/-- Step 3 with the Hillis-Steele scan (lines 221-236). -/
def step2MetricsHs (e3a e3b : ProfEvent) (workv spanv : Nat) : StepMetrics :=
  { kernel_time := evDur e3a, transfer_time := evDur e3b,
    total_time := evDur e3a + evDur e3b,
    work := workv, span := spanv }

/-- Step 4 (LUT normalization, lines 247-264). -/
def step3Metrics (e4a e4b : ProfEvent) : StepMetrics :=
  { kernel_time := evDur e4a, transfer_time := evDur e4b,
    total_time := evDur e4a + evDur e4b,
    work := 65536, span := 1 }

/-- Step 5 (back-projection, lines 275-290). -/
def step4Metrics (e5a e5b : ProfEvent) (image_size : Nat) : StepMetrics :=
  { kernel_time := evDur e5a, transfer_time := evDur e5b,
    total_time := evDur e5a + evDur e5b,
    work := image_size, span := 1 }

/-- The five metric records of one channel, assembled exactly as the
per-channel loop fills `metrics[c][0..4]` from the profiling events. -/
def channelMetrics (scanIsBl : Bool) (e1a e1b e2a e2b e3a e3b e4a e4b e5a e5b : ProfEvent)
    (image_size hist_size num_bins padded_num_bins workHs span1 span2 : Nat) :
    Fin 5 → StepMetrics :=
  fun s =>
    match s with
    | 0 => step0Metrics e1a e1b image_size hist_size
    | 1 => step1Metrics e2a e2b image_size num_bins span1
    | 2 => if scanIsBl then step2MetricsBl e3a e3b padded_num_bins span2
           else step2MetricsHs e3a e3b workHs span2
    | 3 => step3Metrics e4a e4b
    | 4 => step4Metrics e5a e5b image_size

/-! ## Shared lemmas about the run model -/

/-- In every branch of the try block the input-file open has already been
attempted, no usage text is printed, and the `-l` flag's output is
whatever the parsing loop produced. -/
theorem runPipeline_fields (env : Env) (l : Bool) :
    (runPipeline env l).loadAttempted = true ∧
    (runPipeline env l).usagePrinted = false ∧
    (runPipeline env l).listPrinted = l := by
  unfold runPipeline
  split
  · exact ⟨rfl, rfl, rfl⟩
  · split
    · exact ⟨rfl, rfl, rfl⟩
    · split
      · exact ⟨rfl, rfl, rfl⟩
      · split
        · exact ⟨rfl, rfl, rfl⟩
        · exact ⟨rfl, rfl, rfl⟩

/-- Once the image decodes successfully, the pipeline's image is fixed,
whatever later device steps do. -/
theorem runPipeline_image (env : Env) (l : Bool) (img : Image)
    (hopen : env.fopen_ok = true)
    (hdec : (if env.maxval ≤ 255 then env.decode8.map expandImage else env.decode16) = some img) :
    (runPipeline env l).image = some img := by
  simp only [runPipeline, hopen, hdec, Bool.true_eq_false, if_false]
  split
  · rfl
  · split <;> rfl

/-- Unfolding of `runProgram` when parsing runs to completion. -/
theorem runProgram_done (args : List String) (env : Env) (cfg : Config) (listed : Bool)
    (hp : parseArgs args = .done cfg listed) :
    runProgram args env =
      if cfg.num_bins ≤ 0 then
        { exitCode := 1, usagePrinted := false, listPrinted := listed,
          errPrinted := true, loadAttempted := false, image := none,
          channelsProcessed := 0 }
      else if cfg.scan_type ≠ "bl" ∧ cfg.scan_type ≠ "hs" then
        { exitCode := 1, usagePrinted := false, listPrinted := listed,
          errPrinted := true, loadAttempted := false, image := none,
          channelsProcessed := 0 }
      else runPipeline env listed := by
  unfold runProgram
  rw [hp]

/-! ## Claim theorems -/

/-- Claim C2 (code-bug evidence): with the default command line and the
input file `mdr16.ppm` missing, the program prints a diagnostic to
standard error yet terminates with exit status 0: the `catch` handlers at
lines 356-360 fall through to `return 0` at line 362. -/
theorem missing_file_prints_error_but_exits_zero :
    (runProgram [] ⟨false, 0, none, none, true, true⟩).errPrinted = true ∧
    (runProgram [] ⟨false, 0, none, none, true, true⟩).exitCode = 0 := by
  exact ⟨rfl, rfl⟩

/-- Claim C3 (counterexample): with command line `-l` and a missing input
file, the program prints the platform list but then still attempts to
open the input image — the `-l` branch at line 46 has no early return, so
the program does not "exit without loading an image". -/
theorem list_flag_does_not_exit :
    (runProgram ["-l"] ⟨false, 0, none, none, true, true⟩).listPrinted = true ∧
    (runProgram ["-l"] ⟨false, 0, none, none, true, true⟩).loadAttempted = true ∧
    (runProgram ["-l"] ⟨false, 0, none, none, true, true⟩).errPrinted = true := by
  exact ⟨rfl, rfl, rfl⟩

/-- Claim C3 (amended): when the command line contains the `-l` flag, the
program prints the list of all platforms and devices, but it does not
exit: it continues with normal processing and attempts to load the input
image. -/
theorem list_flag_continues (env : Env) :
    (runProgram ["-l"] env).listPrinted = true ∧
    (runProgram ["-l"] env).loadAttempted = true := by
  have h := runPipeline_fields env true
  rw [runProgram_done ["-l"] env {} true rfl]
  rw [if_neg (by decide : ¬(({} : Config).num_bins ≤ 0))]
  rw [if_neg (by decide : ¬(({} : Config).scan_type ≠ "bl" ∧ ({} : Config).scan_type ≠ "hs"))]
  exact ⟨h.2.2, h.1⟩

/-- Two-channel test image used for claim C4. -/
def twoChanImage : Image := ⟨2, 2, 2, [0, 0, 0, 0, 0, 0, 0, 0]⟩

/-- Environment decoding `twoChanImage` as a 16-bit image. -/
def twoChanEnv : Env := ⟨true, 65535, none, some twoChanImage, true, true⟩

/-- Claim C4 (counterexample): a loaded image with 2 channels is not
rejected: the per-channel pipeline processes both channels, no diagnostic
is printed and the program exits 0 — there is no channel-count check
anywhere in `main`. -/
theorem two_channel_image_processed :
    (runProgram [] twoChanEnv).channelsProcessed = 2 ∧
    (runProgram [] twoChanEnv).errPrinted = false ∧
    (runProgram [] twoChanEnv).exitCode = 0 := by
  exact ⟨rfl, rfl, rfl⟩

/-- Claim C4 (amended): the channel-extraction step performs no
channel-count validation at all: whenever an image decodes successfully
and the device steps succeed, the per-channel pipeline runs over all of
the image's channels, whatever their number, and no error is reported. -/
theorem no_channel_count_check (args : List String) (env : Env) (cfg : Config)
    (listed : Bool) (img : Image)
    (hp : parseArgs args = .done cfg listed)
    (hbins : 0 < cfg.num_bins)
    (hscan : cfg.scan_type = "bl" ∨ cfg.scan_type = "hs")
    (hopen : env.fopen_ok = true)
    (hmax : ¬env.maxval ≤ 255)
    (hdec : env.decode16 = some img)
    (hctx : env.context_ok = true)
    (hbuild : env.build_ok = true) :
    (runProgram args env).channelsProcessed = img.spectrum ∧
    (runProgram args env).errPrinted = false := by
  rw [runProgram_done args env cfg listed hp]
  rw [if_neg (by omega : ¬cfg.num_bins ≤ 0)]
  rw [if_neg (by rcases hscan with h | h <;> simp [h])]
  simp [runPipeline, hopen, if_neg hmax, hdec, hctx, hbuild]

/-- Witness for `no_channel_count_check` at the two-channel image. -/
theorem no_channel_count_check_witness :
    (runProgram [] twoChanEnv).channelsProcessed = twoChanImage.spectrum ∧
    (runProgram [] twoChanEnv).errPrinted = false :=
  no_channel_count_check [] twoChanEnv {} false twoChanImage rfl (by decide)
    (Or.inl rfl) rfl (by decide) rfl rfl rfl

/-- Claim C6: a non-positive bin count or a scan-type string other than
"bl" and "hs" is detected right after argument parsing: a diagnostic is
printed to standard error and the process exits with status 1, before the
input image is ever opened and before any device work. -/
theorem config_error_exits_nonzero (args : List String) (env : Env) (cfg : Config)
    (listed : Bool)
    (hp : parseArgs args = .done cfg listed)
    (hbad : cfg.num_bins ≤ 0 ∨ (cfg.scan_type ≠ "bl" ∧ cfg.scan_type ≠ "hs")) :
    (runProgram args env).exitCode = 1 ∧
    (runProgram args env).errPrinted = true ∧
    (runProgram args env).loadAttempted = false := by
  rw [runProgram_done args env cfg listed hp]
  rcases hbad with h | h
  · rw [if_pos h]
    exact ⟨rfl, rfl, rfl⟩
  · by_cases hb : cfg.num_bins ≤ 0
    · rw [if_pos hb]
      exact ⟨rfl, rfl, rfl⟩
    · rw [if_neg hb, if_pos h]
      exact ⟨rfl, rfl, rfl⟩

/-- Witness for `config_error_exits_nonzero` at `-b 0`. -/
theorem config_error_exits_nonzero_witness :
    (runProgram ["-b", "0"] ⟨true, 65535, none, none, true, true⟩).exitCode = 1 ∧
    (runProgram ["-b", "0"] ⟨true, 65535, none, none, true, true⟩).errPrinted = true ∧
    (runProgram ["-b", "0"] ⟨true, 65535, none, none, true, true⟩).loadAttempted = false :=
  config_error_exits_nonzero ["-b", "0"] ⟨true, 65535, none, none, true, true⟩
    { num_bins := 0 } false (by decide) (Or.inl (by decide))

/-- One-channel two-pixel 8-bit test image for claim C7. -/
def eightBitImage : Image := ⟨2, 1, 1, [0, 100, 255]⟩

/-- Environment whose header reports `maxval = 255`. -/
def eightBitEnv : Env := ⟨true, 255, some eightBitImage, none, true, true⟩

/-- Claim C7: when the header's maxval is at most 255 the image is loaded
through the 8-bit decoder and every sample `v` is expanded to `v * 257`
before the pipeline consumes it; on 8-bit samples the 16-bit truncation
is the identity, 0 maps to 0 and 255 maps to 65535. -/
theorem eight_bit_expansion (args : List String) (env : Env) (cfg : Config)
    (listed : Bool) (img8 : Image)
    (hp : parseArgs args = .done cfg listed)
    (hbins : 0 < cfg.num_bins)
    (hscan : cfg.scan_type = "bl" ∨ cfg.scan_type = "hs")
    (hopen : env.fopen_ok = true)
    (hmax : env.maxval ≤ 255)
    (hdec : env.decode8 = some img8) :
    (runProgram args env).image = some (expandImage img8) ∧
    (∀ v, v ≤ 255 → expandSample v = v * 257) ∧
    expandSample 0 = 0 ∧ expandSample 255 = 65535 := by
  refine ⟨?_, ?_, rfl, rfl⟩
  · rw [runProgram_done args env cfg listed hp]
    rw [if_neg (by omega : ¬cfg.num_bins ≤ 0)]
    rw [if_neg (by rcases hscan with h | h <;> simp [h])]
    exact runPipeline_image env listed (expandImage img8) hopen (by rw [if_pos hmax, hdec]; rfl)
  · intro v hv
    unfold expandSample
    have : v * 257 < 65536 := by omega
    exact Nat.mod_eq_of_lt this

/-- Witness for `eight_bit_expansion` at a concrete 8-bit image. -/
theorem eight_bit_expansion_witness :
    (runProgram [] eightBitEnv).image = some (expandImage eightBitImage) ∧
    expandSample 100 = 25700 := by
  have h := eight_bit_expansion [] eightBitEnv {} false eightBitImage rfl
    (by decide) (Or.inl rfl) rfl (by decide) rfl
  exact ⟨h.1, h.2.1 100 (by decide)⟩

/-- Claim C8: for every channel (free choice of profiling events and
sizes) and every one of the five pipeline steps, the recorded
`total_time` equals `transfer_time + kernel_time`, and the input-transfer
step's `kernel_time` is 0. -/
theorem metrics_total_eq_sum (scanIsBl : Bool)
    (e1a e1b e2a e2b e3a e3b e4a e4b e5a e5b : ProfEvent)
    (image_size hist_size num_bins padded_num_bins workHs span1 span2 : Nat) :
    (∀ s : Fin 5,
      (channelMetrics scanIsBl e1a e1b e2a e2b e3a e3b e4a e4b e5a e5b
        image_size hist_size num_bins padded_num_bins workHs span1 span2 s).total_time =
      (channelMetrics scanIsBl e1a e1b e2a e2b e3a e3b e4a e4b e5a e5b
        image_size hist_size num_bins padded_num_bins workHs span1 span2 s).transfer_time +
      (channelMetrics scanIsBl e1a e1b e2a e2b e3a e3b e4a e4b e5a e5b
        image_size hist_size num_bins padded_num_bins workHs span1 span2 s).kernel_time) ∧
    (channelMetrics scanIsBl e1a e1b e2a e2b e3a e3b e4a e4b e5a e5b
      image_size hist_size num_bins padded_num_bins workHs span1 span2 0).kernel_time = 0 := by
  constructor
  · intro s
    fin_cases s <;> cases scanIsBl <;>
      simp [channelMetrics, step0Metrics, step1Metrics, step2MetricsBl,
        step2MetricsHs, step3Metrics, step4Metrics, add_comm]
  · rfl

/-- If `-f` never occurs among the remaining arguments, the parsing loop
leaves the configured image filename unchanged. -/
theorem parseLoop_filename (args : List String) (cfg : Config) (l : Bool) :
    "-f" ∉ args → ∀ c li, parseLoop args cfg l = .done c li →
      c.image_filename = cfg.image_filename := by
  induction args, cfg, l using parseLoop.induct
  · intro _ c li h
    simp only [parseLoop, ParseOutcome.done.injEq] at h
    rw [← h.1]
  · intro _ c li h
    simp only [parseLoop, reduceIte, ParseOutcome.done.injEq] at h
    rw [← h.1]
  · intro _ c li h
    simp [parseLoop] at h
  · next a _ _ ha1 ha2 =>
    intro _ c li h
    simp only [parseLoop, if_neg ha1, if_neg ha2, ParseOutcome.done.injEq] at h
    rw [← h.1]
  · next b rest cfg listed ih =>
    intro hf c li h
    simp only [parseLoop, reduceIte] at h
    exact ih (fun hm => hf (List.mem_cons_of_mem _ (List.mem_cons_of_mem _ hm))) c li h
  · next b rest cfg listed _ ih =>
    intro hf c li h
    simp only [parseLoop, reduceIte] at h
    exact ih (fun hm => hf (List.mem_cons_of_mem _ (List.mem_cons_of_mem _ hm))) c li h
  · next b rest cfg listed _ _ ih =>
    intro hf c li h
    simp only [parseLoop, reduceIte] at h
    exact ih (fun hm => hf (List.mem_cons_of_mem _ hm)) c li h
  · next b rest cfg listed _ _ _ ih =>
    intro hf _ _ _
    exact absurd (List.mem_cons_self _ _) hf
  · next b rest cfg listed _ _ _ _ ih =>
    intro hf c li h
    simp only [parseLoop, reduceIte] at h
    exact ih (fun hm => hf (List.mem_cons_of_mem _ (List.mem_cons_of_mem _ hm))) c li h
  · next b rest cfg listed _ _ _ _ _ ih =>
    intro hf c li h
    simp only [parseLoop, reduceIte] at h
    exact ih (fun hm => hf (List.mem_cons_of_mem _ (List.mem_cons_of_mem _ hm))) c li h
  · next b rest cfg listed _ _ _ _ _ _ =>
    intro _ c li h
    simp [parseLoop] at h
  · next a b rest cfg listed h1 h2 h3 h4 h5 h6 h7 ih =>
    intro hf c li h
    simp only [parseLoop, if_neg h1, if_neg h2, if_neg h3, if_neg h4, if_neg h5,
      if_neg h6, if_neg h7] at h
    exact ih (fun hm => hf (List.mem_cons_of_mem _ hm)) c li h

/-- Claim C9 (counterexample): `-h` on a command line that contains no
`-f` prints the usage text and exits without attempting to load any
image, so the absence of `-f` alone does not imply "no usage output and a
load attempt". -/
theorem help_without_f_prints_usage :
    ("-f" ∉ (["-h"] : List String)) ∧
    (runProgram ["-h"] ⟨true, 0, none, none, true, true⟩).usagePrinted = true ∧
    (runProgram ["-h"] ⟨true, 0, none, none, true, true⟩).loadAttempted = false := by
  exact ⟨by decide, rfl, rfl⟩

/-- Claim C9 (amended): when the command line contains no `-f` option, the
parsed configuration keeps the default filename "mdr16.ppm"; if in
addition parsing ran to completion (no `-h`) and the configured bin count
and scan type are valid, the program prints no usage text and silently
attempts to load "mdr16.ppm". -/
theorem default_filename_used (args : List String) (env : Env) (cfg : Config)
    (listed : Bool)
    (hf : "-f" ∉ args)
    (hp : parseArgs args = .done cfg listed)
    (hbins : 0 < cfg.num_bins)
    (hscan : cfg.scan_type = "bl" ∨ cfg.scan_type = "hs") :
    cfg.image_filename = "mdr16.ppm" ∧
    (runProgram args env).usagePrinted = false ∧
    (runProgram args env).loadAttempted = true := by
  have hname := parseLoop_filename args {} false hf cfg listed hp
  have hfields := runPipeline_fields env listed
  refine ⟨hname, ?_, ?_⟩ <;>
    rw [runProgram_done args env cfg listed hp,
      if_neg (by omega : ¬cfg.num_bins ≤ 0),
      if_neg (by rcases hscan with h | h <;> simp [h])]
  · exact hfields.2.1
  · exact hfields.1

/-- Witness for `default_filename_used` at the empty command line. -/
theorem default_filename_used_witness :
    (runProgram [] ⟨false, 0, none, none, true, true⟩).usagePrinted = false ∧
    (runProgram [] ⟨false, 0, none, none, true, true⟩).loadAttempted = true := by
  have h := default_filename_used [] ⟨false, 0, none, none, true, true⟩ {} false
    (by decide) rfl (by decide) (Or.inl rfl)
  exact ⟨h.2.1, h.2.2⟩

/-- Claim C10: the parsing loop never rejects a command line: a
value-taking option that is the final argument is ignored and the current
configuration is kept; an argument that matches no option is skipped; and
a value-taking option given twice keeps the later value (the last
occurrence wins). -/
theorem cli_parsing_total :
    (∀ o, o ∈ (["-p", "-d", "-f", "-b", "-s"] : List String) →
      ∀ cfg l, parseLoop [o] cfg l = .done cfg l) ∧
    (∀ a rest cfg l, a ∉ (["-p", "-d", "-l", "-f", "-b", "-s", "-h"] : List String) →
      parseLoop (a :: rest) cfg l = parseLoop rest cfg l) ∧
    (∀ o, o ∈ (["-p", "-d", "-f", "-b", "-s"] : List String) →
      ∀ v1 v2 rest cfg l,
        parseLoop (o :: v1 :: o :: v2 :: rest) cfg l = parseLoop (o :: v2 :: rest) cfg l) := by
  refine ⟨?_, ?_, ?_⟩
  · intro o ho cfg l
    fin_cases ho <;> simp [parseLoop]
  · intro a rest cfg l ha
    simp only [List.mem_cons, not_or, List.not_mem_nil, not_false_iff, and_true] at ha
    obtain ⟨h1, h2, h3, h4, h5, h6, h7⟩ := ha
    cases rest with
    | nil => simp [parseLoop, h3, h7]
    | cons b r => simp [parseLoop, h1, h2, h3, h4, h5, h6, h7]
  · intro o ho v1 v2 rest cfg l
    fin_cases ho <;> simp [parseLoop]

/-- Witness for `cli_parsing_total` at concrete command lines. -/
theorem cli_parsing_total_witness :
    parseLoop ["-f"] {} false = .done {} false ∧
    parseLoop ["xyz"] {} false = parseLoop [] {} false ∧
    parseLoop ["-b", "1", "-b", "2"] {} false = parseLoop ["-b", "2"] {} false :=
  ⟨cli_parsing_total.1 "-f" (by decide) {} false,
    cli_parsing_total.2.1 "xyz" [] {} false (by decide),
    cli_parsing_total.2.2 "-b" (by decide) "1" "2" [] {} false⟩

/-! ## Correctness of `next_power_of_2` on its intended range -/

/-- Each smearing step stays below any power-of-two bound on its input. -/
theorem orShift_lt {m t L : Nat} (h : m < 2 ^ L) : orShift m t < 2 ^ L := by
  have h2 : m >>> t ≤ m := by
    rw [Nat.shiftRight_eq_div_pow]
    exact Nat.div_le_self _ _
  exact Nat.or_lt_two_pow h (lt_of_le_of_lt h2 h)

/-- `SetTop L c m` says the top `c` bits of an `L`-bit value are all 1. -/
def SetTop (L c m : Nat) : Prop :=
  ∀ i, i < L → L ≤ i + c → m.testBit i = true

/-- One smearing step `m ||| m >>> t` doubles the run of set top bits. -/
theorem setTop_step {L c t m : Nat} (hc : SetTop L c m) (ht : t ≤ c) :
    SetTop L (c + t) (orShift m t) := by
  intro i hiL hLe
  unfold orShift
  rw [Nat.testBit_or, Nat.testBit_shiftRight]
  by_cases hci : L ≤ i + c
  · rw [hc i hiL hci]
    simp
  · push_neg at hci
    have h1 : t + i < L := by omega
    have h2 : L ≤ t + i + c := by omega
    rw [hc (t + i) h1 h2]
    simp

/-- The most significant bit of a non-zero value is set. -/
theorem setTop_base {m : Nat} (hm : m ≠ 0) : SetTop (Nat.size m) 1 m := by
  intro i hiL hLe
  have hi : i = Nat.size m - 1 := by omega
  subst hi
  have hL : 0 < Nat.size m := Nat.size_pos.mpr (Nat.pos_of_ne_zero hm)
  have hlow : 2 ^ (Nat.size m - 1) ≤ m := Nat.lt_size.mp (by omega)
  have hhigh : m < 2 ^ Nat.size m := Nat.lt_size_self m
  rw [Nat.testBit_to_div_mod]
  have hpow : 0 < 2 ^ (Nat.size m - 1) := Nat.pos_pow_of_pos _ (by norm_num)
  have h1 : 1 ≤ m / 2 ^ (Nat.size m - 1) := (Nat.one_le_div_iff hpow).mpr hlow
  have h2 : m / 2 ^ (Nat.size m - 1) < 2 := by
    apply Nat.div_lt_of_lt_mul
    calc m < 2 ^ Nat.size m := hhigh
    _ = 2 ^ (Nat.size m - 1 + 1) := by rw [Nat.sub_add_cancel hL]
    _ = 2 ^ (Nat.size m - 1) * 2 := by rw [pow_succ]
  have : m / 2 ^ (Nat.size m - 1) = 1 := by omega
  rw [this]
  decide

/-- Below 2^32 the five smearing steps set every bit below the MSB. -/
theorem smearAll_eq {m : Nat} (hm : 0 < m) (hlt : m < 2 ^ 32) :
    smearAll m = 2 ^ Nat.size m - 1 := by
  have hL32 : Nat.size m ≤ 32 := Nat.size_le.mpr hlt
  have hmL : m < 2 ^ Nat.size m := Nat.lt_size_self m
  have s1 : SetTop (Nat.size m) 1 m := setTop_base hm.ne'
  have s2 := setTop_step s1 (le_refl 1)
  have s4 := setTop_step s2 (by norm_num : 2 ≤ 1 + 1)
  have s8 := setTop_step s4 (by norm_num : 4 ≤ 1 + 1 + 2)
  have s16 := setTop_step s8 (by norm_num : 8 ≤ 1 + 1 + 2 + 4)
  have s32 := setTop_step s16 (by norm_num : 16 ≤ 1 + 1 + 2 + 4 + 8)
  have hb : smearAll m < 2 ^ Nat.size m :=
    orShift_lt (orShift_lt (orShift_lt (orShift_lt (orShift_lt hmL))))
  unfold smearAll
  unfold smearAll at hb
  apply Nat.eq_of_testBit_eq
  intro i
  rw [Nat.testBit_two_pow_sub_one]
  by_cases hi : i < Nat.size m
  · rw [s32 i hi (by omega)]
    simp [hi]
  · push_neg at hi
    rw [Nat.testBit_lt_two_pow
      (lt_of_lt_of_le hb (Nat.pow_le_pow_right (by norm_num) hi))]
    simp [Nat.not_lt.mpr hi]

/-- On the intended range, `next_power_of_2 n` is `2 ^ size (n - 1)`. -/
theorem next_power_of_2_eq_pow_size {n : Nat} (h1 : 1 ≤ n) (h2 : n ≤ 2 ^ 32) :
    next_power_of_2 n = 2 ^ Nat.size (n - 1) := by
  unfold next_power_of_2
  rw [if_neg (by omega)]
  by_cases hn1 : n = 1
  · subst hn1
    simp only [Nat.sub_self, Nat.size_zero]
    decide
  · have hm : 0 < n - 1 := by omega
    have hlt : n - 1 < 2 ^ 32 := by omega
    rw [smearAll_eq hm hlt]
    have hpow : 0 < 2 ^ Nat.size (n - 1) := Nat.pos_pow_of_pos _ (by norm_num)
    rw [Nat.sub_add_cancel hpow]
    apply Nat.mod_eq_of_lt
    calc 2 ^ Nat.size (n - 1) ≤ 2 ^ 32 :=
          Nat.pow_le_pow_right (by norm_num) (Nat.size_le.mpr hlt)
    _ < 2 ^ 64 := by norm_num

/-- A smearing step fixes an all-ones value. -/
theorem orShift_ones (k t : Nat) : orShift (2 ^ k - 1) t = 2 ^ k - 1 := by
  apply Nat.eq_of_testBit_eq
  intro i
  unfold orShift
  rw [Nat.testBit_or, Nat.testBit_shiftRight, Nat.testBit_two_pow_sub_one,
    Nat.testBit_two_pow_sub_one]
  by_cases hik : i < k
  · simp [hik]
  · have : ¬t + i < k := by omega
    simp [hik, this]

/-- Claim C5 (counterexample): at `n = 2^32 + 1`, which is representable
in the 64-bit `size_t` argument, `next_power_of_2` returns `2^33 - 1` —
not a power of two at all, hence not the least power of two ≥ n: the bit
smearing stops at a shift of 16, which only covers 32-bit values. -/
theorem next_power_of_2_wrong_above_2_pow_32 :
    next_power_of_2 (2 ^ 32 + 1) = 2 ^ 33 - 1 ∧ (∀ k : Nat, 2 ^ k ≠ 2 ^ 33 - 1) := by
  constructor
  · decide
  · intro k h
    cases k with
    | zero => simp at h
    | succ k =>
      have h2 : 2 ∣ 2 ^ (k + 1) := dvd_pow_self 2 (Nat.succ_ne_zero k)
      rw [h] at h2
      have : ¬(2 ∣ 2 ^ 33 - 1) := by decide
      exact this h2

/-- Claim C5 (amended): `next_power_of_2 0 = 1`; for every representable
power of two `n > 0` the function returns `n` itself; for every `n` with
`1 ≤ n ≤ 2^32` the result is the least power of two ≥ n (above `2^32` the
16-bit smearing cutoff makes the "least power of two" clause fail); in
particular `next_power_of_2 100 = 128`. -/
theorem next_power_of_2_spec :
    next_power_of_2 0 = 1 ∧
    (∀ n k : Nat, n = 2 ^ k → n < 2 ^ 64 → next_power_of_2 n = n) ∧
    (∀ n : Nat, 1 ≤ n → n ≤ 2 ^ 32 →
      n ≤ next_power_of_2 n ∧
      (∃ k, next_power_of_2 n = 2 ^ k) ∧
      (∀ j, n ≤ 2 ^ j → next_power_of_2 n ≤ 2 ^ j)) ∧
    next_power_of_2 100 = 128 := by
  refine ⟨rfl, ?_, ?_, by decide⟩
  · intro n k hn hlt
    subst hn
    unfold next_power_of_2
    rw [if_neg (Nat.pos_iff_ne_zero.mp (Nat.pos_pow_of_pos _ (by norm_num)))]
    unfold smearAll
    rw [orShift_ones, orShift_ones, orShift_ones, orShift_ones, orShift_ones]
    rw [Nat.sub_add_cancel (Nat.pos_pow_of_pos _ (by norm_num))]
    exact Nat.mod_eq_of_lt hlt
  · intro n hn1 hn2
    rw [next_power_of_2_eq_pow_size hn1 hn2]
    refine ⟨?_, ⟨_, rfl⟩, ?_⟩
    · have := Nat.lt_size_self (n - 1)
      omega
    · intro j hj
      apply Nat.pow_le_pow_right (by norm_num)
      exact Nat.size_le.mpr (by omega)

/-- Witness for `next_power_of_2_spec` at concrete inputs. -/
theorem next_power_of_2_spec_witness :
    next_power_of_2 8 = 8 ∧ 100 ≤ next_power_of_2 100 ∧ next_power_of_2 100 ≤ 2 ^ 7 :=
  ⟨next_power_of_2_spec.2.1 8 3 (by norm_num) (by norm_num),
    (next_power_of_2_spec.2.2.1 100 (by norm_num) (by norm_num)).1,
    (next_power_of_2_spec.2.2.1 100 (by norm_num) (by norm_num)).2.2 7 (by norm_num)⟩

/-! ## Equivalence of the two scans (claim C1) -/

/-- After `t` doubling steps, each element holds the sum of the window of
width `2 ^ t` ending at its position — the classic Hillis-Steele
invariant. -/
theorem hsIter_eq (t : Nat) (f : Nat → Nat) (i : Nat) :
    hsIter t f i = ∑ j in Finset.Ico (i + 1 - 2 ^ t) (i + 1), f j := by
  induction t generalizing i with
  | zero =>
    simp only [hsIter, pow_zero]
    rw [Finset.sum_Ico_eq_sum_range]
    simp
  | succ t ih =>
    show hsStep (2 ^ t) (hsIter t f) i = _
    unfold hsStep
    rw [ih i]
    by_cases h : 2 ^ t ≤ i
    · rw [if_pos h, ih (i - 2 ^ t)]
      have e1 : i - 2 ^ t + 1 = i + 1 - 2 ^ t := by omega
      have hmn : i + 1 - 2 ^ (t + 1) ≤ i + 1 - 2 ^ t := by
        have : 2 ^ t ≤ 2 ^ (t + 1) := Nat.pow_le_pow_right (by norm_num) (by omega)
        omega
      have hnk : i + 1 - 2 ^ t ≤ i + 1 := by omega
      have hsplit := Finset.sum_Ico_consecutive f hmn hnk
      have e2 : i + 1 - 2 ^ t - 2 ^ t = i + 1 - 2 ^ (t + 1) := by
        rw [pow_succ]
        omega
      rw [e1, ← hsplit, e2]
      exact add_comm _ _
    · rw [if_neg h, add_zero]
      have : i + 1 - 2 ^ (t + 1) = i + 1 - 2 ^ t := by
        rw [pow_succ]
        omega
      rw [this]

/-- Sums over an index range agree with sums of `take`. -/
theorem sum_range_getD (xs : List Nat) (n : Nat) :
    ∑ j in Finset.range n, xs.getD j 0 = (xs.take n).sum := by
  induction n with
  | zero => simp
  | succ n ih =>
    rw [Finset.sum_range_succ, ih, List.take_succ, List.sum_append]
    cases hx : xs[n]? with
    | none => simp [hx]
    | some v => simp [hx]

/-- `incScan` preserves the length. -/
theorem incScan_length (xs : List Nat) : (incScan xs).length = xs.length := by
  induction xs with
  | nil => rfl
  | cons x xs ih => simp [incScan, ih]

/-- Entry `i` of `incScan` is the sum of the first `i + 1` elements. -/
theorem incScan_getD (xs : List Nat) (i : Nat) (h : i < xs.length) :
    (incScan xs).getD i 0 = (xs.take (i + 1)).sum := by
  induction xs generalizing i with
  | nil => simp at h
  | cons x xs ih =>
    cases i with
    | zero => simp [incScan]
    | succ i =>
      have hi : i < xs.length := by simpa using h
      have hlen : i < (incScan xs).length := by rw [incScan_length]; exact hi
      simp only [incScan, List.getD_cons_succ]
      rw [List.getD_eq_getElem _ _ (by simpa using hlen), List.getElem_map,
        ← List.getD_eq_getElem (incScan xs) 0 hlen, ih i hi]
      simp

/-- The step-efficient scan computes the inclusive prefix sums. -/
theorem scan_hs_eq_incScan (hist : List Nat) : scan_hs hist = incScan hist := by
  apply List.ext_getElem
  · simp [scan_hs, incScan_length]
  · intro i h1 h2
    have hi : i < hist.length := by simpa [scan_hs] using h1
    simp only [scan_hs, List.getElem_map, List.getElem_range]
    rw [hsIter_eq]
    have hB : hist.length ≤ 2 ^ Nat.clog 2 hist.length := Nat.le_pow_clog (by norm_num) _
    have h0 : i + 1 - 2 ^ Nat.clog 2 hist.length = 0 := by omega
    rw [h0, Nat.Ico_zero_eq_range, sum_range_getD,
      ← List.getD_eq_getElem (incScan hist) 0 h2, incScan_getD hist i hi]

/-- The up-sweep value of a tree is the sum of its elements. -/
theorem PTree.upsweep_eq_sum (t : PTree) : t.toList.sum = t.upsweep := by
  induction t with
  | leaf v => simp [PTree.toList, PTree.upsweep]
  | node l r ihl ihr => simp [PTree.toList, PTree.upsweep, ihl, ihr]

/-- Prefix sums of a concatenation: the right part is offset by the left
part's total. -/
theorem incScan_append (xs ys : List Nat) :
    incScan (xs ++ ys) = incScan xs ++ (incScan ys).map (xs.sum + ·) := by
  induction xs with
  | nil => simp [incScan]
  | cons x xs ih =>
    simp only [List.cons_append, incScan, List.append_eq]
    rw [ih]
    simp [Function.comp_def, add_assoc]

/-- The down-sweep distributes prefix totals: flattening a down-swept tree
yields the inclusive prefix sums of its elements, shifted by the
accumulator. -/
theorem PTree.downsweep_toList (t : PTree) (acc : Nat) :
    (t.downsweep acc).toList = (incScan t.toList).map (acc + ·) := by
  induction t generalizing acc with
  | leaf v => simp [PTree.downsweep, PTree.toList, incScan]
  | node l r ihl ihr =>
    simp only [PTree.downsweep, PTree.toList, ihl, ihr, incScan_append,
      List.map_append, List.map_map]
    congr 1
    congr 1
    funext y
    simp [Function.comp, add_assoc, PTree.upsweep_eq_sum]

/-- Building a tree over a buffer of length `2 ^ k` and flattening it is
the identity. -/
theorem buildTree_toList (k : Nat) (xs : List Nat) (h : xs.length = 2 ^ k) :
    (buildTree k xs).toList = xs := by
  induction k generalizing xs with
  | zero =>
    obtain ⟨a, rfl⟩ := List.length_eq_one.mp (by simpa using h)
    simp [buildTree, PTree.toList]
  | succ k ih =>
    have hle : 2 ^ k ≤ xs.length := by
      rw [h, pow_succ]
      omega
    have h1 : (xs.take (2 ^ k)).length = 2 ^ k := by
      rw [List.length_take]
      omega
    have h2 : (xs.drop (2 ^ k)).length = 2 ^ k := by
      rw [List.length_drop, h, pow_succ]
      omega
    simp [buildTree, PTree.toList, ih _ h1, ih _ h2]

/-- The work-efficient scan computes the inclusive prefix sums on any
power-of-two buffer. -/
theorem scan_bl_eq_incScan (k : Nat) (xs : List Nat) (h : xs.length = 2 ^ k) :
    scan_bl k xs = incScan xs := by
  unfold scan_bl
  rw [PTree.downsweep_toList, buildTree_toList k xs h]
  simp

/-- Claim C1: for every input histogram of positive length representable
as an `int` bin count, the work-efficient scan over the zero-padded
power-of-two buffer and the step-efficient scan over the unpadded buffer
read back identical values in the first `bin_count` entries. -/
theorem scan_bl_hs_agree (hist : List Nat) (h0 : 0 < hist.length)
    (h31 : hist.length ≤ 2 ^ 31) :
    (cumHist_bl hist).take hist.length = cumHist_hs hist := by
  have hle : hist.length ≤ 2 ^ 32 := by
    calc hist.length ≤ 2 ^ 31 := h31
    _ ≤ 2 ^ 32 := by norm_num
  have hps := next_power_of_2_eq_pow_size h0 hle
  have hBP : hist.length ≤ next_power_of_2 hist.length := by
    rw [hps]
    have := Nat.lt_size_self (hist.length - 1)
    omega
  have hlog : Nat.log 2 (next_power_of_2 hist.length) = Nat.size (hist.length - 1) := by
    rw [hps, Nat.log_pow (by norm_num)]
  have hlenpad :
      (hist ++ List.replicate (next_power_of_2 hist.length - hist.length) 0).length =
        2 ^ Nat.log 2 (next_power_of_2 hist.length) := by
    rw [List.length_append, List.length_replicate, hlog, ← hps]
    omega
  unfold cumHist_bl cumHist_hs
  rw [scan_hs_eq_incScan, scan_bl_eq_incScan _ _ hlenpad, incScan_append]
  exact List.take_left' (incScan_length hist)

/-- Witness for `scan_bl_hs_agree` at the spec's uniform 4-bin histogram. -/
theorem scan_bl_hs_agree_witness :
    (cumHist_bl [4, 4, 4, 4]).take 4 = cumHist_hs [4, 4, 4, 4] :=
  scan_bl_hs_agree [4, 4, 4, 4] (by decide) (by norm_num)

end Assignment1
